import Mathlib

/-!
# Verification of the fantasy-finance core (Rust sources)

Shallow embedding of the order / market / holdings / activity stores of the
repository. Numeric `f64` fields are modelled by `Rat`; the only floating-point
arithmetic the verified paths perform is the comparison
`(a - b).abs() < f64::EPSILON` on values that are stored and compared
unchanged, and on the concrete inputs used below that comparison is exact in
`f64`, so the rational model agrees with the machine semantics there.
Timestamps are `Int` seconds since the epoch; a calendar day
(`chrono::DateTime::date_naive`) is modelled by its epoch-day number
`⌊ts / 86400⌋`, which determines the date string injectively.
Hash maps are modelled by association lists (first binding wins), and the
per-key durable files by total functions returning `[]` for a missing file,
exactly as the readers do.
-/

namespace FantasyFinance

/-- `f64::EPSILON` = 2⁻⁵² = 1/4503599627370496, the tolerance used by the
holding-match predicates in `portfolio.rs` and `holdings_service.rs`. -/
def f64Epsilon : Rat := 1 / 4503599627370496

/-- `f64::abs`, written executably so that the kernel can evaluate it. -/
def ratAbs (x : Rat) : Rat := if x < 0 then -x else x

/-- Epoch-day number of a timestamp: `DateTime::from_timestamp(ts, 0).date_naive()`
modelled as floor division by 86400. -/
def dayOf (ts : Int) : Int := Int.fdiv ts 86400

/-- `HashMap::get` on an association list. -/
def lookupKey {κ α : Type} [DecidableEq κ] : List (κ × α) → κ → Option α
  | [], _ => none
  | (k, v) :: t, u => if k = u then some v else lookupKey t u

/-- `HashMap::insert` (replace the binding if the key is present, else append). -/
def setKey {κ α : Type} [DecidableEq κ] : List (κ × α) → κ → α → List (κ × α)
  | [], u, v => [(u, v)]
  | (k, w) :: t, u, v => if k = u then (u, v) :: t else (k, w) :: setKey t u v

/-- `holdings::Order` (src/src/holdings.rs). -/
structure Order where
  user : String
  symbol : String
  amount : Int
  price : Rat
  deriving DecidableEq

/-- `portfolio::Holding` (src/src/portfolio.rs); `updated_at` is the epoch
timestamp of the `DateTime<Utc>` field. -/
structure Holding where
  user : String
  symbol : String
  original_price : Rat
  current_price : Rat
  amount : Int
  updated_at : Int
  deriving DecidableEq

/-- The match predicate of `HoldingsService::record` (portfolio.rs lines 33–38):
same symbol, `(h.original_price - order.price).abs() < f64::EPSILON`,
same amount, and same calendar day as the evaluation instant `now`. -/
def matchesHolding (h : Holding) (o : Order) (now : Int) : Bool :=
  decide (h.symbol = o.symbol)
    && decide (ratAbs (h.original_price - o.price) < f64Epsilon)
    && decide (h.amount = o.amount)
    && decide (dayOf h.updated_at = dayOf now)

/-- The `Holding` pushed by the no-match branch of `HoldingsService::record`. -/
def mkHolding (o : Order) (current_price : Rat) (now : Int) : Holding :=
  { user := o.user, symbol := o.symbol, original_price := o.price,
    current_price := current_price, amount := o.amount, updated_at := now }

/-- Body of `HoldingsService::record` on one user's entry list:
`iter_mut().find(matches)` updates `current_price` and `updated_at` of the
first match in place, otherwise the new holding is pushed at the end. -/
def recordHolding : List Holding → Order → Rat → Int → List Holding
  | [], o, cp, now => [mkHolding o cp now]
  | h :: t, o, cp, now =>
    if matchesHolding h o now then
      { h with current_price := cp, updated_at := now } :: t
    else
      h :: recordHolding t o cp now

/-- In-memory state of `portfolio::HoldingsService`: `HashMap<String, Vec<Holding>>`. -/
def HoldingsMap : Type := List (String × List Holding)

/-- `HoldingsService::record`: `map.entry(user).or_default()` then the in-place
find-or-push of `recordHolding`. -/
def recordService (s : HoldingsMap) (o : Order) (current_price : Rat) (now : Int) :
    HoldingsMap :=
  setKey s o.user (recordHolding ((lookupKey s o.user).getD []) o current_price now)

/-- `HoldingsService::for_user`: `map.get(user).cloned().unwrap_or_default()`. -/
def forUserHoldings (s : HoldingsMap) (user : String) : List Holding :=
  (lookupKey s user).getD []

/-- `yahoo_finance_api::Quote`, fields in source order. -/
structure Quote where
  timestamp : Int
  «open» : Rat
  high : Rat
  low : Rat
  volume : Nat
  close : Rat
  adjclose : Rat
  deriving DecidableEq

/-- `market::DailyClose`; the `date` string is modelled by its epoch-day
number (`dayOf` of the quote timestamp), which determines it injectively. -/
structure DailyClose where
  date : Int
  close : Rat
  deriving DecidableEq

/-- `market::PriceInfo`: the quote history stored per symbol. -/
structure PriceInfo where
  history : List Quote
  deriving DecidableEq

/-- `PriceInfo::latest_price`: `history.last().map(|q| q.close)`. -/
def latestPrice (p : PriceInfo) : Option Rat :=
  p.history.getLast?.map Quote.close

/-- The durable `DailyClose` step of `MarketData::update` (market.rs lines
168–181): if the fetched quote list has a last element, derive its day; read
the symbol's file; if the stored history's *last* entry is not for that day,
append a new `DailyClose` and rewrite the file, otherwise leave it alone. -/
def persistDaily (durable : String → List DailyClose) (sym : String)
    (quotes : List Quote) : String → List DailyClose :=
  match quotes.getLast? with
  | none => durable
  | some q =>
    let date := dayOf q.timestamp
    let history := durable sym
    if history.getLast?.map DailyClose.date ≠ some date then
      Function.update durable sym (history ++ [{ date := date, close := q.close }])
    else
      durable

/-- The per-symbol fetch loop of `MarketData::update`: processes the symbols
in order, returning the durable state after the writes performed so far, the
list of symbols actually fetched, and `some` of the freshly built snapshot map
when every fetch succeeded (`none` as soon as one fetch fails, which makes the
whole cycle return the error immediately). -/
def runCycle (fetch : String → Except Unit (List Quote)) :
    List String → (String → List DailyClose) →
      (String → List DailyClose) × List String × Option (List (String × PriceInfo))
  | [], durable => (durable, [], some [])
  | s :: rest, durable =>
    match fetch s with
    | .error _ => (durable, [s], none)
    | .ok quotes =>
      let r := runCycle fetch rest (persistDaily durable s quotes)
      (r.1, s :: r.2.1, (r.2.2).map (fun m => (s, { history := quotes }) :: m))

/-- State of `MarketData`: the in-memory snapshot map and the per-symbol
durable price files (a missing file reads as `[]`). -/
structure MarketState where
  snapshot : List (String × PriceInfo)
  durable : String → List DailyClose

/-- `MarketData::update`. The Rust code iterates the distinct symbol set of
the orders in an unspecified (`HashSet`) order; the iteration order is taken
here as the explicit list `syms`. On a fetch failure the error is returned at
once: the snapshot is untouched and no holding is recorded. On success the
snapshot is replaced wholesale, and every order whose symbol has a latest
price is recorded into the `portfolio::HoldingsService` state at instant
`now`. Returns the new market state, the new holdings state, the list of
symbols that were actually fetched, and the `Result`. -/
def marketUpdate (fetch : String → Except Unit (List Quote)) (syms : List String)
    (orders : List Order) (st : MarketState) (hold : HoldingsMap) (now : Int) :
    MarketState × HoldingsMap × List String × Except Unit Unit :=
  let r := runCycle fetch syms st.durable
  match r.2.2 with
  | none => ({ snapshot := st.snapshot, durable := r.1 }, hold, r.2.1, .error ())
  | some m =>
    let priceMap : List (String × Rat) :=
      m.filterMap (fun p => (latestPrice p.2).map (fun v => (p.1, v)))
    let hold' := orders.foldl
      (fun h o =>
        match lookupKey priceMap o.symbol with
        | some p => recordService h o p now
        | none => h)
      hold
    ({ snapshot := m, durable := r.1 }, hold', r.2.1, .ok ())

/-- `MarketData::prices`: project the latest close of every symbol, dropping
symbols whose quote history is empty. -/
def pricesView (st : MarketState) : List (String × Rat) :=
  st.snapshot.filterMap (fun p => (latestPrice p.2).map (fun v => (p.1, v)))

/-- `MarketData::symbols`: every key of the in-memory snapshot. -/
def symbolsView (st : MarketState) : List String :=
  st.snapshot.map Prod.fst

/-- `holdings::StoreError` (only the `NoOrders` variant is observable here). -/
inductive StoreError where
  | NoOrders : String → StoreError
  deriving DecidableEq

/-- The `thiserror` display string of `StoreError`:
`#[error("no orders for user {0}")]`. -/
def StoreError.message : StoreError → String
  | .NoOrders user => "no orders for user " ++ user

/-- `HoldingStore::orders_for_user`: in-memory map first; on a miss, load the
user's durable file (`[]` when absent); an empty load is the `NoOrders` error,
a non-empty load is cached and returned. Returns the result together with the
possibly updated cache. -/
def ordersForUser (cache : List (String × List Order))
    (durable : String → List Order) (user : String) :
    Except StoreError (List Order) × List (String × List Order) :=
  match lookupKey cache user with
  | some orders => (.ok orders, cache)
  | none =>
    let loaded := durable user
    if loaded.isEmpty then
      (.error (.NoOrders user), cache)
    else
      (.ok loaded, setKey cache user loaded)

/-- State of `holdings::HoldingStore`: the in-memory per-user map and the
per-user durable order files (a missing file reads as `[]`). -/
structure OrderStoreState where
  cache : List (String × List Order)
  durable : String → List Order

/-- `HoldingStore::all_orders`: `map.values().flatten()` over the in-memory
map only. -/
def allOrders (s : OrderStoreState) : List Order :=
  (s.cache.map Prod.snd).flatten

/-- Modelled from the spec: `strava::Segment` is declared in a strava.rs
variant that is not under src/; per §3 a Segment is
{id, name, distance, averageGrade} with no further invariants, matching the
literals in main.rs tests. -/
structure Segment where
  id : Nat
  name : String
  distance : Rat
  average_grade : Rat
  deriving DecidableEq

/-- Modelled from the spec: `strava::Activity` (the spec's ActivityRecord) is
declared in a strava.rs variant that is not under src/; per §3 it is
{id, name, segments, averageHeartRate: optional, maxHeartRate: optional},
matching the field uses in activities.rs and the literals in main.rs tests. -/
structure Activity where
  id : Nat
  name : String
  segments : List Segment
  average_heartrate : Option Rat
  max_heartrate : Option Rat
  deriving DecidableEq

/-- The occupied-entry body of `ActivityStore::merge` (activities.rs lines
55–70): each of the three fillable fields is adopted from the incoming record
exactly when the existing record lacks it and the incoming record has it; the
returned flag is the `updated` accumulator. -/
def mergeActivity (existing incoming : Activity) : Activity × Bool :=
  let s1 :=
    if existing.average_heartrate.isNone && incoming.average_heartrate.isSome then
      { existing with average_heartrate := incoming.average_heartrate }
    else existing
  let u1 := existing.average_heartrate.isNone && incoming.average_heartrate.isSome
  let s2 :=
    if s1.max_heartrate.isNone && incoming.max_heartrate.isSome then
      { s1 with max_heartrate := incoming.max_heartrate }
    else s1
  let u2 := u1 || (s1.max_heartrate.isNone && incoming.max_heartrate.isSome)
  let s3 :=
    if s2.segments.isEmpty && !incoming.segments.isEmpty then
      { s2 with segments := incoming.segments }
    else s2
  let u3 := u2 || (s2.segments.isEmpty && !incoming.segments.isEmpty)
  (s3, u3)

/-- `ActivityStore::merge` at the map level: a vacant entry inserts the
incoming record (updated = true); an occupied entry fill-merges into the
stored record. Returns the new map, the resulting record and the flag. -/
def storeMerge (m : List (Nat × Activity)) (incoming : Activity) :
    List (Nat × Activity) × Activity × Bool :=
  match lookupKey m incoming.id with
  | none => (setKey m incoming.id incoming, incoming, true)
  | some existing =>
    let r := mergeActivity existing incoming
    (setKey m incoming.id r.1, r.1, r.2)

/-- A flat quote at a given timestamp and price, as the repository's tests
build them (`sample_quote` / `quote` in market.rs and holdings_service.rs). -/
def mkQuote (ts : Int) (c : Rat) : Quote :=
  { timestamp := ts, «open» := c, high := c, low := c, volume := 0,
    close := c, adjclose := c }

/-- A fresh `MarketData` instance: empty snapshot, no price files. -/
def emptyMarket : MarketState := { snapshot := [], durable := fun _ => [] }

/-- The market state after one refresh of symbol "A" fetching a single quote
for day 0 (close 10), starting from a fresh instance. -/
def dupDayStep1 : MarketState :=
  (marketUpdate (fun _ => .ok [mkQuote 0 10]) ["A"] [] emptyMarket [] 0).1

/-- … after a second refresh fetching a quote for day 1 (close 12). -/
def dupDayStep2 : MarketState :=
  (marketUpdate (fun _ => .ok [mkQuote 86400 12]) ["A"] [] dupDayStep1 [] 0).1

/-- … after a third refresh whose quote is again for day 0 (close 11). -/
def dupDayStep3 : MarketState :=
  (marketUpdate (fun _ => .ok [mkQuote 0 11]) ["A"] [] dupDayStep2 [] 0).1

theorem f64Epsilon_pos : 0 < f64Epsilon := by norm_num [f64Epsilon]

theorem ratAbs_eq_abs (x : Rat) : ratAbs x = |x| := by
  unfold ratAbs
  rcases lt_or_le x 0 with h | h
  · rw [if_pos h, abs_of_neg h]
  · rw [if_neg (not_lt.mpr h), abs_of_nonneg h]

theorem ratAbs_self_sub (x : Rat) : ratAbs (x - x) = 0 := by
  rw [ratAbs_eq_abs, sub_self, abs_zero]

/-- **C1 counterexample.** The spec says the `originalPrice` comparison is
exact floating-point equality; the code compares with a tolerance of
`f64::EPSILON`. A stored `originalPrice` of `0` and an order price of
`2⁻⁵³` (both exactly representable in `f64`, with an exactly representable
difference) are unequal, yet the match predicate of
`HoldingsService::record` accepts them. -/
theorem exactEqualityClaimFalse :
    matchesHolding
      { user := "alice", symbol := "AAPL", original_price := 0, current_price := 1,
        amount := 1, updated_at := 0 }
      { user := "alice", symbol := "AAPL", amount := 1,
        price := 1 / 9007199254740992 } 0 = true
    ∧ (0 : Rat) ≠ 1 / 9007199254740992 := by
  constructor
  · with_unfolding_all decide
  · with_unfolding_all decide

/-- **C1 (amended).** When symbol, amount and day bucket agree, the match
predicate of `HoldingsService::record` holds iff the stored `originalPrice`
and the order's price differ by less than `f64::EPSILON` = 2⁻⁵². Equal
values always match, but exact equality is not required. -/
theorem matchesHolding_iff_epsilon (h : Holding) (o : Order) (now : Int)
    (hs : h.symbol = o.symbol) (ha : h.amount = o.amount)
    (hd : dayOf h.updated_at = dayOf now) :
    matchesHolding h o now = true ↔ |h.original_price - o.price| < f64Epsilon := by
  simp [matchesHolding, hs, ha, hd, ratAbs_eq_abs]

theorem matchesHolding_iff_epsilon_witness :
    matchesHolding
      { user := "alice", symbol := "AAPL", original_price := 10, current_price := 11,
        amount := 1, updated_at := 0 }
      { user := "alice", symbol := "AAPL", amount := 1, price := 10 } 0 = true
    ↔ |(10 : Rat) - 10| < f64Epsilon :=
  matchesHolding_iff_epsilon _ _ 0 rfl rfl rfl

/-- **C4.** Recording a holding twice for the same order at two instants in
the same day bucket, starting from an empty service, leaves exactly one
holding for that user, carrying the second call's `current_price` (and the
second instant as `updated_at`). -/
theorem record_same_day_upsert (o : Order) (p1 p2 : Rat) (t1 t2 : Int)
    (hday : dayOf t1 = dayOf t2) :
    forUserHoldings (recordService (recordService [] o p1 t1) o p2 t2) o.user =
      [{ user := o.user, symbol := o.symbol, original_price := o.price,
         current_price := p2, amount := o.amount, updated_at := t2 }] := by
  have hm : matchesHolding (mkHolding o p1 t1) o t2 = true := by
    simp [matchesHolding, mkHolding, hday, ratAbs_eq_abs, f64Epsilon_pos]
  simp only [mkHolding] at hm
  simp [recordService, forUserHoldings, lookupKey, setKey, recordHolding, mkHolding, hm]

theorem record_same_day_upsert_witness :
    forUserHoldings
      (recordService
        (recordService [] { user := "alice", symbol := "AAPL", amount := 5, price := 10 } 11 0)
        { user := "alice", symbol := "AAPL", amount := 5, price := 10 } 12 3600) "alice" =
      [{ user := "alice", symbol := "AAPL", original_price := 10,
         current_price := 12, amount := 5, updated_at := 3600 }] :=
  record_same_day_upsert
    { user := "alice", symbol := "AAPL", amount := 5, price := 10 } 11 12 0 3600 (by decide)

/-- **C5.** Recording the same order at evaluation timestamp 0 and then at
timestamp 86400 (the next calendar day) yields exactly two holdings for the
user. -/
theorem record_day_boundary_split (o : Order) (p1 p2 : Rat) :
    (forUserHoldings (recordService (recordService [] o p1 0) o p2 86400) o.user).length
      = 2 := by
  have hm : matchesHolding (mkHolding o p1 0) o 86400 = false := by
    have hd : decide (dayOf 0 = dayOf 86400) = false := by decide
    simp only [matchesHolding, mkHolding] at *
    simp [hd]
  simp [recordService, forUserHoldings, lookupKey, setKey, recordHolding, hm]

/-- **C7.** `orders_for_user` yields the `NoOrders` error exactly when the
in-memory map has no entry for the user and the user's durable file is
missing or empty; otherwise it returns the cached (resp. loaded) order list.
The error's display string is `"no orders for user "` followed by the user. -/
theorem ordersForUser_not_found_iff (cache : List (String × List Order))
    (durable : String → List Order) (user : String) :
    ((ordersForUser cache durable user).1 = .error (.NoOrders user)
        ↔ lookupKey cache user = none ∧ durable user = [])
    ∧ (∀ os, lookupKey cache user = some os →
        (ordersForUser cache durable user).1 = .ok os)
    ∧ (lookupKey cache user = none → durable user ≠ [] →
        (ordersForUser cache durable user).1 = .ok (durable user))
    ∧ (StoreError.NoOrders user).message = "no orders for user " ++ user := by
  refine ⟨?_, ?_, ?_, rfl⟩
  · cases hc : lookupKey cache user with
    | none =>
        by_cases hd : durable user = [] <;>
          simp [ordersForUser, hc, hd, List.isEmpty_iff]
    | some os => simp [ordersForUser, hc]
  · intro os hos
    simp [ordersForUser, hos]
  · intro hc hd
    simp [ordersForUser, hc, List.isEmpty_iff, hd]

theorem ordersForUser_not_found_iff_witness :
    (ordersForUser [] (fun _ => []) "bob").1 = .error (.NoOrders "bob") :=
  (ordersForUser_not_found_iff [] (fun _ => []) "bob").1.mpr ⟨rfl, rfl⟩

/-- **C8.** `all_orders` flattens the in-memory per-user lists and never
consults durable storage: its result is unchanged by any change to the
durable files, and with an empty in-memory map it is empty no matter what
order files exist on disk. -/
theorem allOrders_ignores_durable (cache : List (String × List Order))
    (d1 d2 : String → List Order) :
    allOrders { cache := cache, durable := d1 } = (cache.map Prod.snd).flatten
    ∧ allOrders { cache := cache, durable := d1 }
        = allOrders { cache := cache, durable := d2 }
    ∧ ∀ d : String → List Order, allOrders { cache := [], durable := d } = [] :=
  ⟨rfl, rfl, fun _ => rfl⟩

/-- **C10.** Listing holdings for a user with no entry returns the empty
list; `HoldingsService::for_user` has no error outcome at all, unlike
`orders_for_user`. -/
theorem forUserHoldings_total (s : HoldingsMap) (user : String)
    (h : lookupKey s user = none) : forUserHoldings s user = [] := by
  simp [forUserHoldings, h]

theorem forUserHoldings_total_witness : forUserHoldings [] "carol" = [] :=
  forUserHoldings_total [] "carol" rfl

theorem runCycle_ok_spec (fetch : String → Except Unit (List Quote)) :
    ∀ (syms : List String) (d : String → List DailyClose),
      (∀ s ∈ syms, ∃ q, fetch s = .ok q) →
      (runCycle fetch syms d).2.1 = syms ∧
      ∃ m, (runCycle fetch syms d).2.2 = some m ∧
        m.map Prod.fst = syms ∧ ∀ p ∈ m, fetch p.1 = .ok p.2.history := by
  intro syms
  induction syms with
  | nil => intro d _; exact ⟨rfl, [], rfl, rfl, by simp⟩
  | cons s rest ih =>
    intro d hall
    obtain ⟨q, hq⟩ := hall s (List.mem_cons_self s rest)
    have hrest := ih (persistDaily d s q)
      (fun x hx => hall x (List.mem_cons_of_mem s hx))
    obtain ⟨hlog, m, hm, hfst, hmem⟩ := hrest
    refine ⟨?_, (s, { history := q }) :: m, ?_, ?_, ?_⟩
    · simp [runCycle, hq, hlog]
    · simp [runCycle, hq, hm]
    · simp [hfst]
    · intro p hp
      rcases List.mem_cons.mp hp with h | h
      · rw [h]; exact hq
      · exact hmem p h

theorem runCycle_err_spec (fetch : String → Except Unit (List Quote))
    (sbad : String) (post : List String) (hbad : fetch sbad = .error ()) :
    ∀ (pre : List String) (d : String → List DailyClose),
      (∀ s ∈ pre, ∃ q, fetch s = .ok q) →
      (runCycle fetch (pre ++ sbad :: post) d).2.1 = pre ++ [sbad] ∧
      (runCycle fetch (pre ++ sbad :: post) d).2.2 = none := by
  intro pre
  induction pre with
  | nil => intro d _; simp [runCycle, hbad]
  | cons s rest ih =>
    intro d hall
    obtain ⟨q, hq⟩ := hall s (List.mem_cons_self s rest)
    have hrest := ih (persistDaily d s q)
      (fun x hx => hall x (List.mem_cons_of_mem s hx))
    simp [runCycle, hq, hrest.1, hrest.2]

theorem runCycle_ok_all_fetched (fetch : String → Except Unit (List Quote)) :
    ∀ (syms : List String) (d : String → List DailyClose)
      (m : List (String × PriceInfo)),
      (runCycle fetch syms d).2.2 = some m →
      ∀ s ∈ syms, ∃ q, fetch s = .ok q := by
  intro syms
  induction syms with
  | nil => intro d m _ s hs; cases hs
  | cons s rest ih =>
    intro d m hm x hx
    cases hf : fetch s with
    | error e =>
        rw [show (runCycle fetch (s :: rest) d) = (d, [s], none) by
          simp [runCycle, hf]] at hm
        cases hm
    | ok q =>
        have hm' : ((runCycle fetch rest (persistDaily d s q)).2.2).map
            (fun l => (s, ({ history := q } : PriceInfo)) :: l) = some m := by
          simpa [runCycle, hf] using hm
        obtain ⟨m', hm'', _⟩ := Option.map_eq_some'.mp hm'
        rcases List.mem_cons.mp hx with h | h
        · exact h ▸ ⟨q, hf⟩
        · exact ih (persistDaily d s q) m' hm'' x h

/-- **C3.** If the fetch for some symbol in the cycle fails (after any run of
symbols whose fetch succeeds), `MarketData::update` fetches no further
symbol, records no holding, returns the error, and leaves the in-memory
snapshot exactly as it was; conversely a cycle that returns `Ok` fetched
every symbol successfully, and only then is the snapshot replaced. -/
theorem marketUpdate_aborts_on_failure (fetch : String → Except Unit (List Quote))
    (pre post : List String) (sbad : String) (orders : List Order)
    (st : MarketState) (hold : HoldingsMap) (now : Int)
    (hpre : ∀ s ∈ pre, ∃ q, fetch s = .ok q) (hbad : fetch sbad = .error ()) :
    ((marketUpdate fetch (pre ++ sbad :: post) orders st hold now).1.snapshot
        = st.snapshot)
    ∧ (marketUpdate fetch (pre ++ sbad :: post) orders st hold now).2.1 = hold
    ∧ (marketUpdate fetch (pre ++ sbad :: post) orders st hold now).2.2.1
        = pre ++ [sbad]
    ∧ (marketUpdate fetch (pre ++ sbad :: post) orders st hold now).2.2.2
        = .error ()
    ∧ ∀ syms : List String,
        (marketUpdate fetch syms orders st hold now).2.2.2 = .ok () →
        ∀ s ∈ syms, ∃ q, fetch s = .ok q := by
  obtain ⟨hlog, hnone⟩ := runCycle_err_spec fetch sbad post hbad pre st.durable hpre
  refine ⟨?_, ?_, ?_, ?_, ?_⟩
  · simp [marketUpdate, hnone]
  · simp [marketUpdate, hnone]
  · simp [marketUpdate, hnone, hlog]
  · simp [marketUpdate, hnone]
  · intro syms hok s hs
    cases hcyc : (runCycle fetch syms st.durable).2.2 with
    | none => simp [marketUpdate, hcyc] at hok
    | some m => exact runCycle_ok_all_fetched fetch syms st.durable m hcyc s hs

theorem marketUpdate_aborts_on_failure_witness :
    ((marketUpdate (fun s => if s = "BAD" then .error () else .ok [])
        ([] ++ "BAD" :: ["C"]) [] emptyMarket [] 0).2.2.2 = .error ()) :=
  (marketUpdate_aborts_on_failure (fun s => if s = "BAD" then .error () else .ok [])
    [] ["C"] "BAD" [] emptyMarket [] 0
    (fun s hs => absurd hs (List.not_mem_nil s)) rfl).2.2.2.1

/-- **C9.** After a successful refresh cycle in which some symbol's fetch
returned an empty quote list, that symbol appears in `symbols()` but has no
entry in `prices()`: `symbols()` lists every key of the snapshot, while
`prices()` drops symbols with an empty quote history. -/
theorem symbols_prices_disagree_on_empty (fetch : String → Except Unit (List Quote))
    (syms : List String) (orders : List Order) (st : MarketState)
    (hold : HoldingsMap) (now : Int) (sym : String)
    (hall : ∀ s ∈ syms, ∃ q, fetch s = .ok q) (hmem : sym ∈ syms)
    (hempty : fetch sym = .ok []) :
    sym ∈ symbolsView (marketUpdate fetch syms orders st hold now).1
    ∧ ∀ p : Rat,
        (sym, p) ∉ pricesView (marketUpdate fetch syms orders st hold now).1 := by
  obtain ⟨-, m, hm, hfst, hhist⟩ := runCycle_ok_spec fetch syms st.durable hall
  have hsnap : (marketUpdate fetch syms orders st hold now).1.snapshot = m := by
    simp [marketUpdate, hm]
  constructor
  · rw [symbolsView, hsnap, hfst]; exact hmem
  · intro p hp
    rw [pricesView, hsnap] at hp
    obtain ⟨⟨s', info⟩, hin, heq⟩ := List.mem_filterMap.mp hp
    obtain ⟨v, hv, hpair⟩ := Option.map_eq_some'.mp heq
    have hs' : s' = sym := (Prod.mk.injEq _ _ _ _).mp hpair |>.1
    have hinfo : fetch s' = .ok info.history := hhist ⟨s', info⟩ hin
    rw [hs', hempty] at hinfo
    have : info.history = [] := (Except.ok.injEq _ _).mp hinfo.symm
    rw [latestPrice, this] at hv
    simp at hv

theorem symbols_prices_disagree_on_empty_witness :
    "A" ∈ symbolsView (marketUpdate (fun _ => .ok []) ["A"] [] emptyMarket [] 0).1
    ∧ ∀ p : Rat,
        ("A", p) ∉ pricesView (marketUpdate (fun _ => .ok []) ["A"] [] emptyMarket [] 0).1 :=
  symbols_prices_disagree_on_empty (fun _ => .ok []) ["A"] [] emptyMarket [] 0 "A"
    (fun _ _ => ⟨[], rfl⟩) (List.mem_singleton.mpr rfl) rfl

/-- **C2 counterexample.** The durable dedup check of `MarketData::update`
compares only against the *last* stored entry, so a refresh whose quote's day
matches an earlier (non-last) entry appends a duplicate: after refreshes for
day 0, day 1 and day 0 again, symbol "A"'s durable history holds two entries
dated day 0 — the third append was not a no-op and the no-duplicate-dates
invariant fails. -/
theorem dailyDedupClaimFalse :
    dayOf 0 ∈ (dupDayStep2.durable "A").map DailyClose.date
    ∧ dupDayStep3.durable "A" ≠ dupDayStep2.durable "A"
    ∧ ¬ ((dupDayStep3.durable "A").map DailyClose.date).Nodup := by
  have h2 : dupDayStep2.durable "A" =
      [{ date := 0, close := 10 }, { date := 1, close := 12 }] := by
    with_unfolding_all decide
  have h3 : dupDayStep3.durable "A" =
      [{ date := 0, close := 10 }, { date := 1, close := 12 },
       { date := 0, close := 11 }] := by
    with_unfolding_all decide
  refine ⟨?_, ?_, ?_⟩
  · rw [h2]; with_unfolding_all decide
  · rw [h2, h3]; with_unfolding_all decide
  · rw [h3]; with_unfolding_all decide

/-- **C2 (amended).** The durable layer deduplicates only against the most
recent entry: when the incoming quote's day equals the *last* stored entry's
date the durable update is a no-op, and when it differs from the last entry's
date (even if an earlier entry has that date) a new `DailyClose` is appended. -/
theorem persistDaily_last_entry_dedup (durable : String → List DailyClose)
    (sym : String) (quotes : List Quote) (q : Quote)
    (hq : quotes.getLast? = some q) :
    ((durable sym).getLast?.map DailyClose.date = some (dayOf q.timestamp) →
      persistDaily durable sym quotes = durable)
    ∧ ((durable sym).getLast?.map DailyClose.date ≠ some (dayOf q.timestamp) →
      persistDaily durable sym quotes sym
        = durable sym ++ [{ date := dayOf q.timestamp, close := q.close }]) := by
  constructor
  · intro hlast
    simp [persistDaily, hq, hlast]
  · intro hlast
    simp [persistDaily, hq, hlast]

theorem persistDaily_last_entry_dedup_witness :
    persistDaily (fun _ => [{ date := 0, close := 10 }]) "A" [mkQuote 3600 11]
      = (fun _ => [{ date := 0, close := 10 }]) :=
  (persistDaily_last_entry_dedup (fun _ => [{ date := 0, close := 10 }]) "A"
    [mkQuote 3600 11] (mkQuote 3600 11) rfl).1 (by decide)

/-- **C6.** The fill-merge of `ActivityStore::merge` is monotonic: a
heart-rate field that is already `some` and a non-empty segment list are
never changed (so a later merge with a different value leaves them as they
were), a missing field is adopted from the incoming record exactly when the
incoming value is present/non-empty, and the identifying fields are kept. -/
theorem mergeActivity_monotone (existing incoming : Activity) :
    ((mergeActivity existing incoming).1.id = existing.id)
    ∧ ((mergeActivity existing incoming).1.name = existing.name)
    ∧ (∀ v, existing.average_heartrate = some v →
        (mergeActivity existing incoming).1.average_heartrate = some v)
    ∧ (∀ v, existing.max_heartrate = some v →
        (mergeActivity existing incoming).1.max_heartrate = some v)
    ∧ (existing.segments ≠ [] →
        (mergeActivity existing incoming).1.segments = existing.segments)
    ∧ (existing.average_heartrate = none → incoming.average_heartrate ≠ none →
        (mergeActivity existing incoming).1.average_heartrate
          = incoming.average_heartrate)
    ∧ (existing.average_heartrate = none → incoming.average_heartrate = none →
        (mergeActivity existing incoming).1.average_heartrate = none)
    ∧ (existing.max_heartrate = none → incoming.max_heartrate ≠ none →
        (mergeActivity existing incoming).1.max_heartrate
          = incoming.max_heartrate)
    ∧ (existing.segments = [] → incoming.segments ≠ [] →
        (mergeActivity existing incoming).1.segments = incoming.segments) := by
  obtain ⟨eid, ename, esegs, eahr, emhr⟩ := existing
  cases eahr <;> cases emhr <;> cases esegs <;>
    cases hi1 : incoming.average_heartrate <;>
      cases hi2 : incoming.max_heartrate <;>
        cases hi3 : incoming.segments <;>
          simp_all [mergeActivity]

theorem mergeActivity_monotone_witness :
    (mergeActivity
      { id := 7, name := "run", segments := [], average_heartrate := some 100,
        max_heartrate := none }
      { id := 7, name := "run", segments := [], average_heartrate := some 120,
        max_heartrate := some 150 }).1.average_heartrate = some 100 :=
  (mergeActivity_monotone
    { id := 7, name := "run", segments := [], average_heartrate := some 100,
      max_heartrate := none }
    { id := 7, name := "run", segments := [], average_heartrate := some 120,
      max_heartrate := some 150 }).2.2.1 100 rfl

end FantasyFinance
